import Mathlib

/-!
Verification development for the Go-Mailing repository.

The Job Store (`MongoQueue` in `modules/email/queue`), the worker loop
(`EmailWorker` in `modules/email/workers`) and the SMTP transport
(`modules/email/providers`) are embedded shallowly: the Mongo collection
becomes a `List EmailJob`, each store operation becomes a pure function on
that list reproducing the filter/update documents of the source, and the
SMTP message builder becomes a function on strings.
-/

namespace GoMailing

/-- Status constants from `modules/email/models/email.go`. -/
def StatusPending : String := "pending"

def StatusProcessing : String := "processing"

def StatusSent : String := "sent"

def StatusFailed : String := "failed"

/-- Priority constants from `modules/email/models/email.go` (1=high, 2=normal, 3=low). -/
def PriorityHigh : Int := 1

def PriorityNormal : Int := 2

def PriorityLow : Int := 3

/-- `models.EmailJob`: one document of the `emails_queue` collection.
Object ids are modelled as `Nat`, instants (`time.Time`) as `Int`;
`ProcessedAt *time.Time` / `ErrorMessage *string` (bson `omitempty`)
become `Option`, `none` meaning the field is absent from the document. -/
structure EmailJob where
  id : Nat
  toAddr : String
  subject : String
  html : String
  fromAddr : String
  status : String
  priority : Int
  attempts : Int
  maxAttempts : Int
  createdAt : Int
  scheduledAt : Int
  processedAt : Option Int
  errorMessage : Option String
  provider : String
  providerMsgID : String
deriving DecidableEq, Repr

/-- The filter document of `MongoQueue.Dequeue`:
`status ∈ [pending, failed]` and `scheduled_at ≤ now`. -/
def eligibleJob (now : Int) (j : EmailJob) : Bool :=
  (j.status == StatusPending || j.status == StatusFailed) && decide (j.scheduledAt ≤ now)

/-- The sort document of `MongoQueue.Dequeue`: ascending `priority`,
then ascending `created_at`. `claimBefore a b` holds when `a` sorts
strictly before `b`. -/
def claimBefore (a b : EmailJob) : Bool :=
  decide (a.priority < b.priority) ||
    (a.priority == b.priority && decide (a.createdAt < b.createdAt))

/-- Propositional form of the claim ordering: `a` sorts no later than `b`
under ascending `priority` then ascending `createdAt`. -/
def claimLE (a b : EmailJob) : Prop :=
  a.priority < b.priority ∨ (a.priority = b.priority ∧ a.createdAt ≤ b.createdAt)

/-- The document `findOneAndUpdate` acts on: a minimal element of the
matching set under the sort order (the head of the sorted matching list). -/
def pickMin : List EmailJob → Option EmailJob
  | [] => none
  | j :: rest =>
    match pickMin rest with
    | none => some j
    | some m => if claimBefore m j then some m else some j

/-- The update document of `MongoQueue.Dequeue`:
`$set status=processing`, `$inc attempts by 1`. -/
def applyClaim (j : EmailJob) : EmailJob :=
  { j with status := StatusProcessing, attempts := j.attempts + 1 }

/-- Applying the dequeue update to the matched document (documents are
matched by `_id`, which Mongo keeps unique). -/
def claimUpdate (selID : Nat) (d : EmailJob) : EmailJob :=
  if d.id = selID then applyClaim d else d

/-- `MongoQueue.Dequeue`: atomically select the best eligible document,
set it to processing with `attempts` incremented, and return the updated
document (`ReturnDocument.After`); `(none, jobs)` models
`mongo.ErrNoDocuments`, which the Go code turns into `(nil, nil)`. -/
def mongoDequeue (now : Int) (jobs : List EmailJob) : Option EmailJob × List EmailJob :=
  match pickMin (jobs.filter (eligibleJob now)) with
  | none => (none, jobs)
  | some j => (some (applyClaim j), jobs.map (claimUpdate j.id))

/-- The update document of `MongoQueue.MarkComplete`: `$set` of
`status=sent`, `processed_at=now`, `provider`, `provider_msg_id`;
the filter is `_id` only. -/
def markCompleteUpdate (now : Int) (jobID : Nat) (prov msgID : String) (d : EmailJob) :
    EmailJob :=
  if d.id = jobID then
    { d with status := StatusSent, processedAt := some now,
             provider := prov, providerMsgID := msgID }
  else d

/-- `MongoQueue.MarkComplete` on the collection. -/
def mongoMarkComplete (now : Int) (jobID : Nat) (prov msgID : String)
    (jobs : List EmailJob) : List EmailJob :=
  jobs.map (markCompleteUpdate now jobID prov msgID)

/-- The update document of `MongoQueue.MarkFailed`: `$set` of
`status=failed` and `error_message` only — the source does not touch
`processed_at`; the filter is `_id` only. -/
def markFailedUpdate (jobID : Nat) (errMsg : String) (d : EmailJob) : EmailJob :=
  if d.id = jobID then { d with status := StatusFailed, errorMessage := some errMsg } else d

/-- `MongoQueue.MarkFailed` on the collection. -/
def mongoMarkFailed (jobID : Nat) (errMsg : String) (jobs : List EmailJob) : List EmailJob :=
  jobs.map (markFailedUpdate jobID errMsg)

/-- The delete filter of `MongoQueue.CleanupOldJobs`:
`status ∈ [sent, failed]` and `processed_at < now - olderThan`.
A document without a `processed_at` field never matches `$lt`. -/
def cleanupMatch (now olderThan : Int) (j : EmailJob) : Bool :=
  (j.status == StatusSent || j.status == StatusFailed) &&
    (match j.processedAt with
     | some t => decide (t < now - olderThan)
     | none => false)

/-- `MongoQueue.CleanupOldJobs`: `DeleteMany` with the cleanup filter. -/
def mongoCleanupOldJobs (now olderThan : Int) (jobs : List EmailJob) : List EmailJob :=
  jobs.filter (fun j => !(cleanupMatch now olderThan j))

/-- `MongoQueue.Enqueue` default assignment (zero value checks of the Go code). -/
def enqueueDefaults (now : Int) (j : EmailJob) : EmailJob :=
  let j1 := if j.createdAt = 0 then { j with createdAt := now } else j
  let j2 := if j1.scheduledAt = 0 then { j1 with scheduledAt := now } else j1
  let j3 := if j2.status = "" then { j2 with status := StatusPending } else j2
  let j4 := if j3.priority = 0 then { j3 with priority := PriorityNormal } else j3
  if j4.maxAttempts = 0 then { j4 with maxAttempts := 3 } else j4

/-- `MongoQueue.Enqueue`: insert the document with defaults applied. -/
def mongoEnqueue (now : Int) (j : EmailJob) (jobs : List EmailJob) : List EmailJob :=
  jobs ++ [enqueueDefaults now j]

/-- Number of documents matching the dequeue filter. -/
def eligCount (now : Int) (jobs : List EmailJob) : Nat :=
  (jobs.filter (eligibleJob now)).length

/-- `n` successive `Dequeue` calls against the store. Because
`findOneAndUpdate` is atomic at the storage layer, any concurrent
execution of `n` callers linearizes to such a sequence. -/
def dequeueRun (now : Int) : Nat → List EmailJob → List (Option EmailJob) × List EmailJob
  | 0, jobs => ([], jobs)
  | n + 1, jobs =>
    let r := mongoDequeue now jobs
    let rest := dequeueRun now n r.2
    (r.1 :: rest.1, rest.2)

/-! String helpers mirroring the `strings` package functions the source uses. -/

/-- Whether `pat` occurs contiguously in `l` (`strings.Contains`). -/
def containsAux (pat : List Char) : List Char → Bool
  | [] => pat.isEmpty
  | c :: rest => pat.isPrefixOf (c :: rest) || containsAux pat rest

/-- `strings.Contains s pat`. -/
def strContains (s pat : String) : Bool := containsAux pat.data s.data

/-- One pass of `strings.ReplaceAll`, replacing non-overlapping occurrences
left to right; the fuel is an upper bound on the scan length. -/
def replaceAllAux (pat rep : List Char) : Nat → List Char → List Char
  | 0, l => l
  | _ + 1, [] => []
  | fuel + 1, c :: rest =>
    if pat.isPrefixOf (c :: rest) && !pat.isEmpty then
      rep ++ replaceAllAux pat rep fuel (List.drop pat.length (c :: rest))
    else
      c :: replaceAllAux pat rep fuel rest

/-- `strings.ReplaceAll s pat rep`. -/
def strReplaceAll (s pat rep : String) : String :=
  { data := replaceAllAux pat.data rep.data s.data.length s.data }

/-- `strings.HasSuffix`. -/
def strHasSuffix (s suf : String) : Bool := suf.data.isSuffixOf s.data

/-- Whether `p` is a leading substring of `s`. -/
def strStartsWith (s p : String) : Bool := p.data.isPrefixOf s.data

/-! SMTP provider embedding.  The repository carries two copies of the
provider: the file with `extractEmailAddress` (called `part_000` below,
the one whose framing section 4.4 of the spec describes) and the
divergent duplicate `modules/email/providers/smtp_fixed.go`. -/

/-- `providers.ProviderConfig` fields the SMTP code reads. -/
structure ProviderConfig where
  SMTPHost : String
  SMTPPort : Int
  SMTPUsername : String
  SMTPPassword : String
  SMTPFrom : String
  MaxEmailsPerDay : Int
  MaxEmailsPerHour : Int
deriving DecidableEq, Repr

/-- CRLF line terminator. -/
def crlf : String := "\r\n"

/-- `extractEmailAddress` from the provider file: if the value contains
both `<` and `>`, with the first `>` after the first `<`, return the slice
strictly between them, else return the value unchanged. -/
def extractEmailAddress (f : String) : String :=
  if f.data.contains '<' && f.data.contains '>' then
    match f.data.findIdx? (· == '<'), f.data.findIdx? (· == '>') with
    | some s, some e =>
      if e > s then { data := (f.data.drop (s + 1)).take (e - (s + 1)) } else f
    | _, _ => f
  else f

/-- Envelope sender used by all three send paths of the `part_000`
provider (`sendWithSTARTTLS`, `sendWithTLS`, `sendPlain`): the extracted
bare address. -/
def smtpMailFrom (cfg : ProviderConfig) : String :=
  extractEmailAddress cfg.SMTPFrom

/-- Envelope sender used by all three send paths of
`smtp_fixed.go` (`sendWithSTARTTLS`, `sendWithTLS`, `sendPlain`): the raw
configured value, passed to `client.Mail` / `smtp.SendMail` unchanged. -/
def smtpFixedMailFrom (cfg : ProviderConfig) : String :=
  cfg.SMTPFrom

/-- One formatted header line (`fmt.Sprintf("%s: %s\r\n", key, value)`). -/
def headerLine (k v : String) : String := k ++ (": ") ++ v ++ crlf

/-- Body normalization of the `part_000` `createEmailMessage`:
`strings.ReplaceAll(html, "\n", "\r\n")` then
`strings.ReplaceAll(body, "\r\r", "\r")`. -/
def normalizeBody (html : String) : String :=
  strReplaceAll (strReplaceAll html ("\n") crlf) ("\r\r") ("\r")

/-- `createEmailMessage` of the `part_000` provider: the fixed-order
header slice, the blank separator line, the normalized body, and a
trailing CRLF appended when the body lacks one.  `Date` and `Message-ID`
are computed from the clock and the job id in the source and are passed
in here. -/
def createEmailMessage (cfg : ProviderConfig) (email : EmailJob) (date msgID : String) :
    String :=
  let headerPart :=
    headerLine ("From") cfg.SMTPFrom ++
    headerLine ("To") email.toAddr ++
    headerLine ("Subject") email.subject ++
    headerLine ("Date") date ++
    headerLine ("Message-ID") msgID ++
    headerLine ("MIME-Version") ("1.0") ++
    headerLine ("Content-Type") ("text/html; charset=UTF-8") ++
    headerLine ("Content-Transfer-Encoding") ("8bit")
  let body := normalizeBody email.html
  let base := headerPart ++ crlf ++ body
  if strHasSuffix body crlf then base else base ++ crlf

/-! Worker embedding (`EmailWorker.processNextJob` in `part_002`). -/

/-- Outcome of `processJob` (the dispatcher loop over providers). -/
inductive SendResult where
  | success (prov msgID : String)
  | failure (errMsg : String)
deriving DecidableEq, Repr

/-- The rate-limit classification of `processNextJob`: the error text
contains one of the four throttling markers. -/
def isRateLimitMsg (errMsg : String) : Bool :=
  strContains errMsg ("Too many login attempts") ||
    strContains errMsg ("rate limit") ||
    strContains errMsg ("429") ||
    strContains errMsg ("454")

/-- Backoff of the rate-limit branch, in seconds:
`attempts * 30s` capped at five minutes. -/
def backoffSeconds (attempts : Int) : Int :=
  let d := attempts * 30
  if d > 300 then 300 else d

/-- What `processNextJob` does with a job `j` it has just dequeued, given
the dispatcher outcome: on success `MarkComplete`; on a rate-limited
failure sleep the backoff and leave the store untouched (no finalization);
on any other failure `MarkFailed`.  Returns the new store contents and the
seconds slept in the backoff branch. -/
def processDequeued (now : Int) (j : EmailJob) (result : SendResult)
    (jobs : List EmailJob) : List EmailJob × Int :=
  match result with
  | SendResult.success prov msgID => (mongoMarkComplete now j.id prov msgID jobs, 0)
  | SendResult.failure errMsg =>
    if isRateLimitMsg errMsg then (jobs, backoffSeconds j.attempts)
    else (mongoMarkFailed j.id errMsg jobs, 0)

/-! Index creation (`createIndexes` in the queue file). -/

/-- One `mongo.IndexModel` as configured by `createIndexes`. -/
structure IndexSpec where
  keys : List (String × Int)
  idxName : String
  expireAfterSeconds : Option Int
deriving DecidableEq, Repr

/-- The three indexes `createIndexes` installs on `emails_queue`. -/
def createIndexesSpecs : List IndexSpec :=
  [ { keys := [("status", 1), ("priority", 1), ("scheduled_at", 1)],
      idxName := "status_priority_scheduled", expireAfterSeconds := none },
    { keys := [("created_at", 1)],
      idxName := "ttl_created_at", expireAfterSeconds := some 86400 },
    { keys := [("status", 1)],
      idxName := "status_index", expireAfterSeconds := none } ]

/-- The TTL index among the three: keyed on `created_at`, expiring after
86400 seconds. -/
def ttlIndexSpec : IndexSpec :=
  { keys := [("created_at", 1)], idxName := "ttl_created_at",
    expireAfterSeconds := some 86400 }

/-- Modelled from MongoDB TTL-index semantics for the `ttl_created_at`
index above: a document expires once `now` is at least
`expireAfterSeconds = 86400` seconds past its indexed `created_at` value,
regardless of every other field of the document. -/
def ttlExpired (now : Int) (j : EmailJob) : Bool :=
  decide (j.createdAt + 86400 ≤ now)

/-- The background TTL deletion pass: it removes exactly the expired
documents. -/
def ttlSweep (now : Int) (jobs : List EmailJob) : List EmailJob :=
  jobs.filter (fun j => !(ttlExpired now j))

/-! Concrete inputs used by witnesses and counterexamples. -/

/-- A freshly enqueued job with every default applied. -/
def baseJob : EmailJob :=
  { id := 1, toAddr := "user@example.com", subject := "Hello",
    html := "<p>hi</p>\n", fromAddr := "noreply@example.com",
    status := StatusPending, priority := PriorityNormal,
    attempts := 0, maxAttempts := 3, createdAt := 1, scheduledAt := 1,
    processedAt := none, errorMessage := none,
    provider := "", providerMsgID := "" }

/-- A failed job that has used up its attempt budget. -/
def exhaustedJob : EmailJob :=
  { baseJob with id := 4, status := StatusFailed, attempts := 3, maxAttempts := 3 }

/-- A job that failed once and is waiting for another claim. -/
def failedJob : EmailJob :=
  { baseJob with id := 2, status := StatusFailed, attempts := 1 }

/-- A job a worker currently holds. -/
def processingJob : EmailJob :=
  { baseJob with id := 3, status := StatusProcessing, attempts := 1 }

/-- A second pending job, created after `baseJob`. -/
def laterJob : EmailJob :=
  { baseJob with id := 5, createdAt := 2, scheduledAt := 2 }

/-- An example `Date` header value. -/
def dateEx : String := "Mon, 02 Jan 2006 15:04:05 -0700"

/-- An example `Message-ID` header value. -/
def msgIDEx : String := "<1136239445.68a1b2@smtp.example.com>"

/-- A provider configuration whose sender is in display-name form. -/
def cfgEx : ProviderConfig :=
  { SMTPHost := "smtp.example.com", SMTPPort := 587,
    SMTPUsername := "user", SMTPPassword := "pw",
    SMTPFrom := "Notices <a@b.com>",
    MaxEmailsPerDay := 100, MaxEmailsPerHour := 10 }

/-! Lemmas about the claim ordering and `pickMin`. -/

theorem claimBefore_eq_false_iff {a b : EmailJob} :
    claimBefore a b = false ↔ claimLE b a := by
  simp only [claimBefore, claimLE, Bool.or_eq_false_iff, Bool.and_eq_false_iff,
    decide_eq_false_iff_not, beq_eq_false_iff_ne, ne_eq]
  omega

theorem claimBefore_eq_true_imp {a b : EmailJob} (h : claimBefore a b = true) :
    claimLE a b := by
  simp only [claimBefore, claimLE, Bool.or_eq_true, Bool.and_eq_true,
    decide_eq_true_eq, beq_iff_eq] at h ⊢
  omega

theorem claimLE_refl (a : EmailJob) : claimLE a a := by
  simp [claimLE]

theorem claimLE_trans {a b c : EmailJob} (h1 : claimLE a b) (h2 : claimLE b c) :
    claimLE a c := by
  simp only [claimLE] at h1 h2 ⊢
  omega

theorem pickMin_eq_none_iff {l : List EmailJob} : pickMin l = none ↔ l = [] := by
  cases l with
  | nil => simp [pickMin]
  | cons j rest =>
    simp only [pickMin]
    cases pickMin rest <;> simp only [] <;> constructor <;> intro h <;> first
      | exact absurd h (by simp)
      | (split at h <;> simp_all)

theorem pickMin_mem {l : List EmailJob} {m : EmailJob} (h : pickMin l = some m) :
    m ∈ l := by
  induction l with
  | nil => simp [pickMin] at h
  | cons j rest ih =>
    cases hr : pickMin rest with
    | none =>
      simp only [pickMin, hr, Option.some.injEq] at h
      subst h
      exact List.mem_cons_self _ rest
    | some m0 =>
      simp only [pickMin, hr] at h
      by_cases hb : claimBefore m0 j = true
      · rw [if_pos hb] at h
        simp only [Option.some.injEq] at h
        subst h
        exact List.mem_cons_of_mem _ (ih hr)
      · rw [if_neg hb] at h
        simp only [Option.some.injEq] at h
        subst h
        exact List.mem_cons_self _ rest

theorem pickMin_min {l : List EmailJob} : ∀ {m : EmailJob}, pickMin l = some m →
    ∀ x ∈ l, claimLE m x := by
  induction l with
  | nil => intro m h; simp [pickMin] at h
  | cons j rest ih =>
    intro m h
    cases hr : pickMin rest with
    | none =>
      simp only [pickMin, hr, Option.some.injEq] at h
      subst h
      have hrest : rest = [] := pickMin_eq_none_iff.mp hr
      subst hrest
      intro x hx
      rw [List.mem_singleton] at hx
      subst hx
      exact claimLE_refl x
    | some m0 =>
      simp only [pickMin, hr] at h
      by_cases hb : claimBefore m0 j = true
      · rw [if_pos hb] at h
        simp only [Option.some.injEq] at h
        subst h
        intro x hx
        rcases List.mem_cons.mp hx with rfl | hx
        · exact claimBefore_eq_true_imp hb
        · exact ih hr x hx
      · rw [if_neg hb] at h
        simp only [Option.some.injEq] at h
        subst h
        have hle : claimLE j m0 :=
          claimBefore_eq_false_iff.mp (Bool.eq_false_iff.mpr hb)
        intro x hx
        rcases List.mem_cons.mp hx with rfl | hx
        · exact claimLE_refl _
        · exact claimLE_trans hle (ih hr x hx)

theorem pickMin_isSome {l : List EmailJob} (h : l ≠ []) :
    ∃ m, pickMin l = some m := by
  cases hp : pickMin l with
  | none => exact absurd (pickMin_eq_none_iff.mp hp) h
  | some m => exact ⟨m, rfl⟩

/-! Lemmas about eligibility and the dequeue update. -/

theorem eligibleJob_status {now : Int} {j : EmailJob} (h : eligibleJob now j = true) :
    (j.status = StatusPending ∨ j.status = StatusFailed) ∧ j.scheduledAt ≤ now := by
  simp only [eligibleJob, Bool.and_eq_true, Bool.or_eq_true, beq_iff_eq,
    decide_eq_true_eq] at h
  exact h

theorem eligibleJob_applyClaim (now : Int) (j : EmailJob) :
    eligibleJob now (applyClaim j) = false := by
  simp [eligibleJob, applyClaim, StatusProcessing, StatusPending, StatusFailed]

theorem claimUpdate_id (selID : Nat) (d : EmailJob) :
    (claimUpdate selID d).id = d.id := by
  unfold claimUpdate
  split <;> rfl

theorem id_unique {jobs : List EmailJob} (h : (jobs.map EmailJob.id).Nodup)
    {a b : EmailJob} (ha : a ∈ jobs) (hb : b ∈ jobs) (hi : a.id = b.id) : a = b :=
  List.inj_on_of_nodup_map h ha hb hi

theorem mongoDequeue_some_inv {now : Int} {jobs : List EmailJob} {r : EmailJob}
    {after : List EmailJob} (h : mongoDequeue now jobs = (some r, after)) :
    ∃ j0, pickMin (jobs.filter (eligibleJob now)) = some j0 ∧
      j0 ∈ jobs ∧ eligibleJob now j0 = true ∧
      r = applyClaim j0 ∧ after = jobs.map (claimUpdate j0.id) := by
  unfold mongoDequeue at h
  cases hp : pickMin (jobs.filter (eligibleJob now)) with
  | none => rw [hp] at h; exact absurd h (by simp)
  | some j0 =>
    rw [hp] at h
    have hmem := List.mem_filter.mp (pickMin_mem hp)
    simp only [Prod.mk.injEq, Option.some.injEq] at h
    exact ⟨j0, rfl, hmem.1, hmem.2, h.1.symm, h.2.symm⟩

/-- Claim C1: whenever at least one eligible job exists (status pending or
failed and `scheduledAt ≤ now`), `Dequeue` selects among the eligible jobs
one that is least by ascending priority then ascending `createdAt`, sets
its status to processing, increments `attempts` by exactly one, and
returns it; the returned document always originates from an eligible job. -/
theorem C1_dequeue_claims_best (now : Int) (jobs : List EmailJob)
    (h : ∃ j ∈ jobs, eligibleJob now j = true) :
    ∃ j0 ∈ jobs, eligibleJob now j0 = true ∧
      (∀ k ∈ jobs, eligibleJob now k = true → claimLE j0 k) ∧
      (mongoDequeue now jobs).1 = some (applyClaim j0) ∧
      (applyClaim j0).status = StatusProcessing ∧
      (applyClaim j0).attempts = j0.attempts + 1 := by
  obtain ⟨j, hj, he⟩ := h
  have hmem : j ∈ jobs.filter (eligibleJob now) := List.mem_filter.mpr ⟨hj, he⟩
  obtain ⟨m, hm⟩ := pickMin_isSome (List.ne_nil_of_mem hmem)
  have hmF := List.mem_filter.mp (pickMin_mem hm)
  refine ⟨m, hmF.1, hmF.2, ?_, ?_, rfl, rfl⟩
  · intro k hk hke
    exact pickMin_min hm k (List.mem_filter.mpr ⟨hk, hke⟩)
  · unfold mongoDequeue
    rw [hm]

/-- Witness for C1 at a singleton queue holding one pending job. -/
theorem C1_witness :
    ∃ j0 ∈ [baseJob], eligibleJob 10 j0 = true ∧
      (∀ k ∈ [baseJob], eligibleJob 10 k = true → claimLE j0 k) ∧
      (mongoDequeue 10 [baseJob]).1 = some (applyClaim j0) ∧
      (applyClaim j0).status = StatusProcessing ∧
      (applyClaim j0).attempts = j0.attempts + 1 :=
  C1_dequeue_claims_best 10 [baseJob] ⟨baseJob, by simp, by decide⟩

/-- Claim C4 counterexample: the dequeue filter never consults
`attempts` or `maxAttempts`, so a failed job whose `attempts` already
equals `maxAttempts` is still returned by `Dequeue`. -/
theorem C4_counterexample :
    exhaustedJob.status = StatusFailed ∧
    exhaustedJob.attempts = exhaustedJob.maxAttempts ∧
    (mongoDequeue 10 [exhaustedJob]).1 = some (applyClaim exhaustedJob) := by
  decide

/-- Claim C4 amended: a Failed job remains eligible for a further claim
exactly as long as `scheduledAt ≤ now`; eligibility is independent of
`attempts` and `maxAttempts`, so `Dequeue` keeps returning such a job
even after `attempts` has reached `maxAttempts`. -/
theorem C4_failed_always_claimable (now : Int) (j : EmailJob)
    (hf : j.status = StatusFailed) :
    (eligibleJob now j = true ↔ j.scheduledAt ≤ now) ∧
    (∀ a m : Int, eligibleJob now { j with attempts := a, maxAttempts := m } =
        eligibleJob now j) ∧
    (j.scheduledAt ≤ now → (mongoDequeue now [j]).1 = some (applyClaim j)) ∧
    (¬ j.scheduledAt ≤ now → (mongoDequeue now [j]).1 = none) := by
  have hel : eligibleJob now j = decide (j.scheduledAt ≤ now) := by
    simp [eligibleJob, hf, StatusFailed, StatusPending]
  refine ⟨?_, ?_, ?_, ?_⟩
  · rw [hel]; simp
  · intro a m; simp [eligibleJob]
  · intro hs
    have : eligibleJob now j = true := by rw [hel]; simpa
    simp [mongoDequeue, List.filter, this, pickMin]
  · intro hs
    have : eligibleJob now j = false := by
      rw [hel, decide_eq_false_iff_not]
      exact hs
    simp [mongoDequeue, List.filter, this, pickMin]

/-- Witness for C4 amended at a failed job with one prior attempt. -/
theorem C4_witness :
    (eligibleJob 10 failedJob = true ↔ failedJob.scheduledAt ≤ 10) ∧
    (∀ a m : Int, eligibleJob 10 { failedJob with attempts := a, maxAttempts := m } =
        eligibleJob 10 failedJob) ∧
    (failedJob.scheduledAt ≤ 10 → (mongoDequeue 10 [failedJob]).1 =
        some (applyClaim failedJob)) ∧
    (¬ failedJob.scheduledAt ≤ 10 → (mongoDequeue 10 [failedJob]).1 = none) :=
  C4_failed_always_claimable 10 failedJob rfl

/-- Claim C2 (code bug): `MarkFailed` sets only `status` and
`error_message`; `processed_at` stays absent, so the job never matches the
`CleanupOldJobs` delete filter — the retention sweep cannot reclaim a job
that only ever failed. -/
theorem C2_markFailed_leaves_processedAt_absent (jobID : Nat) (msg : String)
    (j : EmailJob) (hid : j.id = jobID) (hp : j.processedAt = none) :
    (markFailedUpdate jobID msg j).status = StatusFailed ∧
    (markFailedUpdate jobID msg j).errorMessage = some msg ∧
    (markFailedUpdate jobID msg j).processedAt = none ∧
    (∀ now olderThan : Int,
        cleanupMatch now olderThan (markFailedUpdate jobID msg j) = false) := by
  subst hid
  simp only [markFailedUpdate, if_pos rfl]
  refine ⟨rfl, rfl, hp, ?_⟩
  intro now olderThan
  simp [cleanupMatch, hp]

/-- Witness for C2 at the job a worker currently holds. -/
theorem C2_witness :
    (markFailedUpdate 3 ("smtp send failed") processingJob).status = StatusFailed ∧
    (markFailedUpdate 3 ("smtp send failed") processingJob).errorMessage =
        some ("smtp send failed") ∧
    (markFailedUpdate 3 ("smtp send failed") processingJob).processedAt = none ∧
    (∀ now olderThan : Int,
        cleanupMatch now olderThan
          (markFailedUpdate 3 ("smtp send failed") processingJob) = false) :=
  C2_markFailed_leaves_processedAt_absent 3 ("smtp send failed") processingJob rfl rfl

/-- Claim C5 counterexample: `MarkComplete` filters on `_id` only, so
applied to a job that is still Pending it moves the status directly from
Pending to Sent with no intermediate Processing state. -/
theorem C5_counterexample :
    baseJob.status = StatusPending ∧
    mongoMarkComplete 5 1 ("smtp") ("m1") [baseJob] =
      [{ baseJob with status := StatusSent, processedAt := some 5,
                      provider := "smtp", providerMsgID := "m1" }] ∧
    StatusSent ≠ StatusProcessing := by
  decide

theorem markCompleteUpdate_id (now : Int) (jobID : Nat) (prov msgID : String)
    (d : EmailJob) : (markCompleteUpdate now jobID prov msgID d).id = d.id := by
  unfold markCompleteUpdate
  split <;> rfl

theorem markFailedUpdate_id (jobID : Nat) (errMsg : String) (d : EmailJob) :
    (markFailedUpdate jobID errMsg d).id = d.id := by
  unfold markFailedUpdate
  split <;> rfl

/-- Claim C5 amended: `Dequeue` only ever moves a job from Pending or
Failed to Processing, but `MarkComplete` and `MarkFailed` filter on `_id`
alone and force the status to Sent / Failed from any prior state, so the
store operations by themselves also admit the direct edges the claim
rules out (for example Pending to Sent, as the counterexample shows);
the spec's edge set holds only under the worker's discipline of invoking
them on jobs it has just claimed. -/
theorem C5_status_edges (now : Int) (jobs : List EmailJob)
    (hnd : (jobs.map EmailJob.id).Nodup) (d : EmailJob) (hd : d ∈ jobs) :
    (∀ r after, mongoDequeue now jobs = (some r, after) →
      ∀ d' ∈ after, d'.id = d.id → d'.status ≠ d.status →
        (d.status = StatusPending ∨ d.status = StatusFailed) ∧
          d'.status = StatusProcessing) ∧
    (∀ jobID prov msgID, ∀ d' ∈ mongoMarkComplete now jobID prov msgID jobs,
        d'.id = d.id → d'.status ≠ d.status → d'.status = StatusSent) ∧
    (∀ jobID errMsg, ∀ d' ∈ mongoMarkFailed jobID errMsg jobs,
        d'.id = d.id → d'.status ≠ d.status → d'.status = StatusFailed) := by
  refine ⟨?_, ?_, ?_⟩
  · intro r after hdq d' hd' hide hst
    obtain ⟨j0, hp, hj0, he0, hr, hafter⟩ := mongoDequeue_some_inv hdq
    subst hafter
    obtain ⟨e, he, rfl⟩ := List.mem_map.mp hd'
    have heid : e.id = d.id := by rw [← claimUpdate_id j0.id e, hide]
    have : e = d := id_unique hnd he hd heid
    subst this
    unfold claimUpdate at hst ⊢
    by_cases hcase : e.id = j0.id
    · have hej : e = j0 := id_unique hnd he hj0 hcase
      subst hej
      rw [if_pos hcase]
      exact ⟨(eligibleJob_status he0).1, rfl⟩
    · rw [if_neg hcase] at hst
      exact absurd rfl hst
  · intro jobID prov msgID d' hd' hide hst
    obtain ⟨e, he, rfl⟩ := List.mem_map.mp hd'
    have heid : e.id = d.id := by rw [← markCompleteUpdate_id now jobID prov msgID e, hide]
    have : e = d := id_unique hnd he hd heid
    subst this
    unfold markCompleteUpdate at hst ⊢
    by_cases hcase : e.id = jobID
    · rw [if_pos hcase]
    · rw [if_neg hcase] at hst
      exact absurd rfl hst
  · intro jobID errMsg d' hd' hide hst
    obtain ⟨e, he, rfl⟩ := List.mem_map.mp hd'
    have heid : e.id = d.id := by rw [← markFailedUpdate_id jobID errMsg e, hide]
    have : e = d := id_unique hnd he hd heid
    subst this
    unfold markFailedUpdate at hst ⊢
    by_cases hcase : e.id = jobID
    · rw [if_pos hcase]
    · rw [if_neg hcase] at hst
      exact absurd rfl hst

/-- Witness for C5 amended on a queue holding one pending job. -/
theorem C5_witness :
    (∀ r after, mongoDequeue 10 [baseJob] = (some r, after) →
      ∀ d' ∈ after, d'.id = baseJob.id → d'.status ≠ baseJob.status →
        (baseJob.status = StatusPending ∨ baseJob.status = StatusFailed) ∧
          d'.status = StatusProcessing) ∧
    (∀ jobID prov msgID, ∀ d' ∈ mongoMarkComplete 10 jobID prov msgID [baseJob],
        d'.id = baseJob.id → d'.status ≠ baseJob.status → d'.status = StatusSent) ∧
    (∀ jobID errMsg, ∀ d' ∈ mongoMarkFailed jobID errMsg [baseJob],
        d'.id = baseJob.id → d'.status ≠ baseJob.status → d'.status = StatusFailed) :=
  C5_status_edges 10 [baseJob] (by simp) baseJob (by simp)

theorem cleanupMatch_iff {now dur : Int} {j : EmailJob} :
    cleanupMatch now dur j = true ↔
      ((j.status = StatusSent ∨ j.status = StatusFailed) ∧
        ∃ t, j.processedAt = some t ∧ t < now - dur) := by
  cases hp : j.processedAt with
  | none => simp [cleanupMatch, hp]
  | some t => simp [cleanupMatch, hp]

/-- Claim C6: `CleanupOlderThan` deletes exactly the jobs with status Sent
or Failed whose recorded `processedAt` is older than `now - d`; every
other job — in particular every Pending or Processing job, of any age —
survives, and survivors are the unchanged original documents (the result
is a sublist of the input). -/
theorem C6_cleanup_exact (now dur : Int) (jobs : List EmailJob) (j : EmailJob)
    (hj : j ∈ jobs) :
    (mongoCleanupOldJobs now dur jobs).Sublist jobs ∧
    (j ∈ mongoCleanupOldJobs now dur jobs ↔
      ¬ ((j.status = StatusSent ∨ j.status = StatusFailed) ∧
          ∃ t, j.processedAt = some t ∧ t < now - dur)) ∧
    ((j.status = StatusPending ∨ j.status = StatusProcessing) →
      j ∈ mongoCleanupOldJobs now dur jobs) := by
  have hmem : j ∈ mongoCleanupOldJobs now dur jobs ↔
      ¬ ((j.status = StatusSent ∨ j.status = StatusFailed) ∧
          ∃ t, j.processedAt = some t ∧ t < now - dur) := by
    rw [mongoCleanupOldJobs, List.mem_filter, ← cleanupMatch_iff]
    simp [hj]
  refine ⟨List.filter_sublist _, hmem, ?_⟩
  intro hps
  rw [hmem]
  rintro ⟨hsf | hsf, -⟩ <;> rcases hps with hp | hp <;> rw [hp] at hsf <;>
    exact absurd hsf (by decide)

/-- Witness for C6 on a queue holding one pending job. -/
theorem C6_witness :
    (mongoCleanupOldJobs 100 24 [baseJob]).Sublist [baseJob] ∧
    (baseJob ∈ mongoCleanupOldJobs 100 24 [baseJob] ↔
      ¬ ((baseJob.status = StatusSent ∨ baseJob.status = StatusFailed) ∧
          ∃ t, baseJob.processedAt = some t ∧ t < 100 - 24)) ∧
    ((baseJob.status = StatusPending ∨ baseJob.status = StatusProcessing) →
      baseJob ∈ mongoCleanupOldJobs 100 24 [baseJob]) :=
  C6_cleanup_exact 100 24 [baseJob] baseJob (by simp)

/-- Claim C3 counterexample: after a rate-limited failure the worker
leaves the store untouched — the claimed job keeps status Processing with
its original `scheduledAt`, so it is not returned to an eligible state and
its next-eligible time is not pushed out (it stays ineligible even far in
the future). -/
theorem C3_counterexample :
    mongoDequeue 10 [baseJob] = (some (applyClaim baseJob), [applyClaim baseJob]) ∧
    isRateLimitMsg ("provider smtp failed: 454 rate limited") = true ∧
    processDequeued 10 (applyClaim baseJob)
        (SendResult.failure ("provider smtp failed: 454 rate limited"))
        [applyClaim baseJob] = ([applyClaim baseJob], 30) ∧
    (applyClaim baseJob).status = StatusProcessing ∧
    (applyClaim baseJob).scheduledAt = baseJob.scheduledAt ∧
    eligibleJob 100000 (applyClaim baseJob) = false := by
  decide

/-- Claim C3 amended: on a transient (rate-limit classified) failure the
worker finalizes nothing — the store is returned unchanged — and sleeps
`min(attempts × 30s, 5min)` computed from the claimed job's
post-increment `attempts`; but the job is not returned to an eligible
state: it keeps status Processing (ineligible at every instant) and its
`scheduledAt` is exactly the pre-claim value, not pushed out. -/
theorem C3_transient_no_finalize (now : Int) (jobs : List EmailJob) (r : EmailJob)
    (after : List EmailJob) (errMsg : String)
    (hdq : mongoDequeue now jobs = (some r, after))
    (hrl : isRateLimitMsg errMsg = true) :
    processDequeued now r (SendResult.failure errMsg) after =
      (after, backoffSeconds r.attempts) ∧
    backoffSeconds r.attempts = min (r.attempts * 30) 300 ∧
    r.status = StatusProcessing ∧
    (∀ t : Int, eligibleJob t r = false) ∧
    ∃ j0 ∈ jobs, r = applyClaim j0 ∧ r.scheduledAt = j0.scheduledAt ∧
      r.attempts = j0.attempts + 1 := by
  obtain ⟨j0, hp, hj0, he0, hr, hafter⟩ := mongoDequeue_some_inv hdq
  subst hr
  refine ⟨by simp [processDequeued, hrl], ?_, rfl,
    fun t => eligibleJob_applyClaim t j0, j0, hj0, rfl, rfl, rfl⟩
  unfold backoffSeconds
  rcases le_total ((applyClaim j0).attempts * 30) 300 with h | h
  · rw [if_neg (by omega), min_eq_left h]
  · rcases eq_or_lt_of_le h with h | h
    · rw [← h, if_neg (by omega), min_self]
    · rw [if_pos h, min_eq_right (le_of_lt h)]

/-- Witness for C3 amended: a claimed pending job hit by a throttling
error. -/
theorem C3_witness :
    processDequeued 10 (applyClaim baseJob) (SendResult.failure ("rate limit"))
        [applyClaim baseJob] = ([applyClaim baseJob], backoffSeconds (applyClaim baseJob).attempts) ∧
    backoffSeconds (applyClaim baseJob).attempts = min ((applyClaim baseJob).attempts * 30) 300 ∧
    (applyClaim baseJob).status = StatusProcessing ∧
    (∀ t : Int, eligibleJob t (applyClaim baseJob) = false) ∧
    ∃ j0 ∈ [baseJob], applyClaim baseJob = applyClaim j0 ∧
      (applyClaim baseJob).scheduledAt = j0.scheduledAt ∧
      (applyClaim baseJob).attempts = j0.attempts + 1 :=
  C3_transient_no_finalize 10 [baseJob] (applyClaim baseJob) [applyClaim baseJob]
    ("rate limit") (by decide) (by decide)

set_option maxRecDepth 16384

/-- Claim C7 counterexample: in the message built by `createEmailMessage`
the `Content-Transfer-Encoding` header sits between the `Content-Type`
header and the blank separator line, so for the HTML body `"<p>hi</p>\n"`
the exact byte sequence
`"Content-Type: text/html; charset=UTF-8\r\n\r\n<p>hi</p>\r\n"` claimed by
the spec does not occur in the message. -/
theorem C7_counterexample :
    baseJob.html = "<p>hi</p>\n" ∧
    strContains (createEmailMessage cfgEx baseJob dateEx msgIDEx)
      ("Content-Type: text/html; charset=UTF-8\r\n\r\n<p>hi</p>\r\n") = false := by
  decide

theorem strHasSuffix_append (a b s : String) (h : strHasSuffix b s = true) :
    strHasSuffix (a ++ b) s = true := by
  unfold strHasSuffix at h ⊢
  rw [String.data_append]
  rw [List.isSuffixOf_iff_suffix] at h ⊢
  exact h.trans (List.suffix_append a.data b.data)

/-- Claim C7 amended: when the HTML body is `"<p>hi</p>\n"` the
constructed message contains the byte sequence
`"Content-Type: text/html; charset=UTF-8\r\nContent-Transfer-Encoding: 8bit\r\n\r\n<p>hi</p>\r\n"`
— the claimed sequence with the interposed `Content-Transfer-Encoding`
header — as a suffix; for every body, the body section written is the
HTML after LF-to-CRLF replacement and doubled-CR collapsing
(`normalizeBody`), a CRLF is appended exactly when that normalized body
lacks one, and the message always ends with CRLF. -/
theorem C7_message_framing (cfg : ProviderConfig) (email : EmailJob)
    (date msgID : String) :
    (email.html = "<p>hi</p>\n" →
      createEmailMessage cfg email date msgID =
        (headerLine ("From") cfg.SMTPFrom ++ headerLine ("To") email.toAddr ++
          headerLine ("Subject") email.subject ++ headerLine ("Date") date ++
          headerLine ("Message-ID") msgID ++ headerLine ("MIME-Version") ("1.0")) ++
        ("Content-Type: text/html; charset=UTF-8\r\nContent-Transfer-Encoding: 8bit\r\n\r\n<p>hi</p>\r\n")) ∧
    (∃ pre : String,
        (strHasSuffix (normalizeBody email.html) crlf = true ∧
          createEmailMessage cfg email date msgID = pre ++ normalizeBody email.html) ∨
        (strHasSuffix (normalizeBody email.html) crlf = false ∧
          createEmailMessage cfg email date msgID =
            pre ++ normalizeBody email.html ++ crlf)) ∧
    strHasSuffix (createEmailMessage cfg email date msgID) crlf = true := by
  refine ⟨?_, ?_, ?_⟩
  · intro hb
    have hbody : normalizeBody "<p>hi</p>\n" = "<p>hi</p>\r\n" := by decide
    have hsplit :
        ("Content-Type: text/html; charset=UTF-8\r\nContent-Transfer-Encoding: 8bit\r\n\r\n<p>hi</p>\r\n" : String) =
          headerLine ("Content-Type") ("text/html; charset=UTF-8") ++
            headerLine ("Content-Transfer-Encoding") ("8bit") ++ crlf ++ "<p>hi</p>\r\n" := by
      decide
    have hmsg : createEmailMessage cfg email date msgID =
        (headerLine ("From") cfg.SMTPFrom ++ headerLine ("To") email.toAddr ++
          headerLine ("Subject") email.subject ++ headerLine ("Date") date ++
          headerLine ("Message-ID") msgID ++ headerLine ("MIME-Version") ("1.0") ++
          headerLine ("Content-Type") ("text/html; charset=UTF-8") ++
          headerLine ("Content-Transfer-Encoding") ("8bit")) ++ crlf ++ "<p>hi</p>\r\n" := by
      unfold createEmailMessage
      rw [hb, hbody]
      rw [if_pos (by decide : strHasSuffix "<p>hi</p>\r\n" crlf = true)]
    rw [hmsg, hsplit]
    simp only [String.append_assoc]
  · unfold createEmailMessage
    by_cases h : strHasSuffix (normalizeBody email.html) crlf = true
    · rw [if_pos h]
      exact ⟨_, Or.inl ⟨h, rfl⟩⟩
    · rw [if_neg h]
      exact ⟨_, Or.inr ⟨Bool.eq_false_iff.mpr h, rfl⟩⟩
  · unfold createEmailMessage
    by_cases h : strHasSuffix (normalizeBody email.html) crlf = true
    · rw [if_pos h]
      exact strHasSuffix_append _ _ _ h
    · rw [if_neg h]
      exact strHasSuffix_append _ _ _ (by decide)

/-- Witness for C7 amended at concrete configuration and job, discharging
the body hypothesis of the first conjunct. -/
theorem C7_witness :
    (createEmailMessage cfgEx baseJob dateEx msgIDEx =
      (headerLine ("From") cfgEx.SMTPFrom ++ headerLine ("To") baseJob.toAddr ++
        headerLine ("Subject") baseJob.subject ++ headerLine ("Date") dateEx ++
        headerLine ("Message-ID") msgIDEx ++ headerLine ("MIME-Version") ("1.0")) ++
      ("Content-Type: text/html; charset=UTF-8\r\nContent-Transfer-Encoding: 8bit\r\n\r\n<p>hi</p>\r\n")) ∧
    (∃ pre : String,
        (strHasSuffix (normalizeBody baseJob.html) crlf = true ∧
          createEmailMessage cfgEx baseJob dateEx msgIDEx =
            pre ++ normalizeBody baseJob.html) ∨
        (strHasSuffix (normalizeBody baseJob.html) crlf = false ∧
          createEmailMessage cfgEx baseJob dateEx msgIDEx =
            pre ++ normalizeBody baseJob.html ++ crlf)) ∧
    strHasSuffix (createEmailMessage cfgEx baseJob dateEx msgIDEx) crlf = true :=
  ⟨(C7_message_framing cfgEx baseJob dateEx msgIDEx).1 rfl,
   (C7_message_framing cfgEx baseJob dateEx msgIDEx).2.1,
   (C7_message_framing cfgEx baseJob dateEx msgIDEx).2.2⟩

/-- Claim C8 (code bug): the `smtp_fixed.go` provider passes the raw
configured sender — display form included — to MAIL FROM on all of its
send paths, while `extractEmailAddress` (used by the other provider
file's paths) yields the bare address the claim requires; the message
`From` header retains the display form. -/
theorem C8_envelope_sender_divergence :
    smtpFixedMailFrom cfgEx = "Notices <a@b.com>" ∧
    extractEmailAddress ("Notices <a@b.com>") = "a@b.com" ∧
    smtpMailFrom cfgEx = "a@b.com" ∧
    smtpFixedMailFrom cfgEx ≠ extractEmailAddress cfgEx.SMTPFrom ∧
    strStartsWith (createEmailMessage cfgEx baseJob dateEx msgIDEx)
      ("From: Notices <a@b.com>\r\n") = true := by
  decide

/-- Claim C10: `createIndexes` installs a TTL index on `created_at` with
an 86400-second expiry; under MongoDB TTL semantics the expiry reads only
`created_at` — it ignores `status` and `processedAt` — so every document,
Pending or Processing included, is removed once `now` reaches
`createdAt + 86400`, independently of the `CleanupOldJobs` sweep. -/
theorem C10_ttl_index (now : Int) (jobs : List EmailJob) (j : EmailJob)
    (hj : j ∈ jobs) :
    (∃ ix ∈ createIndexesSpecs, ix.keys = [("created_at", 1)] ∧
        ix.expireAfterSeconds = some 86400) ∧
    (∀ (s : String) (p : Option Int) (t : Int),
        ttlExpired t { j with status := s, processedAt := p } = ttlExpired t j) ∧
    (j ∈ ttlSweep now jobs ↔ now < j.createdAt + 86400) := by
  refine ⟨⟨ttlIndexSpec, by decide, rfl, rfl⟩, fun s p t => rfl, ?_⟩
  rw [ttlSweep, List.mem_filter]
  simp [hj, ttlExpired, Int.not_le]

/-- Witness for C10 on a queue holding one pending job. -/
theorem C10_witness :
    (∃ ix ∈ createIndexesSpecs, ix.keys = [("created_at", 1)] ∧
        ix.expireAfterSeconds = some 86400) ∧
    (∀ (s : String) (p : Option Int) (t : Int),
        ttlExpired t { baseJob with status := s, processedAt := p } =
          ttlExpired t baseJob) ∧
    (baseJob ∈ ttlSweep 5 [baseJob] ↔ 5 < baseJob.createdAt + 86400) :=
  C10_ttl_index 5 [baseJob] baseJob (by simp)

/-! Lemmas for the linearized concurrent-dequeue analysis. -/

theorem mongoDequeue_none {now : Int} {jobs : List EmailJob}
    (h : jobs.filter (eligibleJob now) = []) : mongoDequeue now jobs = (none, jobs) := by
  unfold mongoDequeue
  rw [h]
  rfl

theorem map_claimUpdate_ids (selID : Nat) (jobs : List EmailJob) :
    (jobs.map (claimUpdate selID)).map EmailJob.id = jobs.map EmailJob.id := by
  rw [List.map_map]
  exact List.map_congr_left fun a _ => claimUpdate_id selID a

theorem claimUpdate_of_ne {selID : Nat} {d : EmailJob} (h : d.id ≠ selID) :
    claimUpdate selID d = d := by
  unfold claimUpdate
  rw [if_neg h]

theorem claimUpdate_self (j : EmailJob) : claimUpdate j.id j = applyClaim j := by
  unfold claimUpdate
  rw [if_pos rfl]

theorem eligCount_claimUpdate (now : Int) :
    ∀ {jobs : List EmailJob} {j0 : EmailJob},
      (jobs.map EmailJob.id).Nodup → j0 ∈ jobs → eligibleJob now j0 = true →
      eligCount now (jobs.map (claimUpdate j0.id)) = eligCount now jobs - 1 := by
  intro jobs
  induction jobs with
  | nil => intro j0 _ hj0 _; simp at hj0
  | cons a rest ih =>
    intro j0 hnd hj0 he
    rw [List.map_cons, List.nodup_cons] at hnd
    obtain ⟨hna, hndr⟩ := hnd
    rcases List.mem_cons.mp hj0 with rfl | hmem
    · have hrest : rest.map (claimUpdate j0.id) = rest := by
        have hcongr : ∀ e ∈ rest, claimUpdate j0.id e = e := by
          intro e hee
          refine claimUpdate_of_ne fun hcon => hna ?_
          exact List.mem_map.mpr ⟨e, hee, hcon⟩
        rw [List.map_congr_left hcongr]
        simp
      simp [eligCount, List.map_cons, claimUpdate_self, hrest, List.filter_cons,
        eligibleJob_applyClaim, he]
    · have hane : a.id ≠ j0.id := fun hcon =>
        hna (List.mem_map.mpr ⟨j0, hmem, hcon.symm⟩)
      have hpos : 0 < eligCount now rest := by
        have : j0 ∈ rest.filter (eligibleJob now) := List.mem_filter.mpr ⟨hmem, he⟩
        exact List.length_pos.mpr (List.ne_nil_of_mem this)
      have hihr := ih hndr hmem he
      cases helig : eligibleJob now a <;>
        simp only [eligCount, List.map_cons, claimUpdate_of_ne hane,
          List.filter_cons, helig, Bool.false_eq_true, if_neg, if_pos,
          List.length_cons, ite_true, ite_false] at hihr ⊢ <;>
        simp only [eligCount] at hpos <;> omega

theorem dequeueRun_spec (now : Int) :
    ∀ (N : Nat) (jobs : List EmailJob), (jobs.map EmailJob.id).Nodup →
    (dequeueRun now N jobs).1.length = N ∧
    ((dequeueRun now N jobs).1.filterMap id).length = min N (eligCount now jobs) ∧
    ((dequeueRun now N jobs).1.countP (fun o => o.isNone)) =
      N - min N (eligCount now jobs) ∧
    (∀ r ∈ (dequeueRun now N jobs).1.filterMap id,
        ∃ j0 ∈ jobs, eligibleJob now j0 = true ∧ r = applyClaim j0) ∧
    (((dequeueRun now N jobs).1.filterMap id).map EmailJob.id).Nodup := by
  intro N
  induction N with
  | zero => intro jobs hnd; simp [dequeueRun]
  | succ n ih =>
    intro jobs hnd
    by_cases hez : jobs.filter (eligibleJob now) = []
    · have hdq : mongoDequeue now jobs = (none, jobs) := mongoDequeue_none hez
      have hK : eligCount now jobs = 0 := by simp [eligCount, hez]
      obtain ⟨ih1, ih2, ih3, ih4, ih5⟩ := ih jobs hnd
      simp only [dequeueRun, hdq]
      refine ⟨by simp [ih1], ?_, ?_, ?_, ?_⟩
      · simp only [List.filterMap_cons, id_eq]
        rw [ih2, hK]
        simp
      · simp only [List.countP_cons, Option.isNone_none]
        rw [ih3, hK]
        simp
      · simp only [List.filterMap_cons, id_eq]
        exact ih4
      · simp only [List.filterMap_cons, id_eq]
        exact ih5
    · obtain ⟨j0, hp⟩ := pickMin_isSome hez
      have hmemF := List.mem_filter.mp (pickMin_mem hp)
      have hdq : mongoDequeue now jobs =
          (some (applyClaim j0), jobs.map (claimUpdate j0.id)) := by
        unfold mongoDequeue
        rw [hp]
      have hnd1 : ((jobs.map (claimUpdate j0.id)).map EmailJob.id).Nodup := by
        rw [map_claimUpdate_ids]
        exact hnd
      have hKpos : 0 < eligCount now jobs :=
        List.length_pos.mpr hez
      have hK1 : eligCount now (jobs.map (claimUpdate j0.id)) =
          eligCount now jobs - 1 :=
        eligCount_claimUpdate now hnd hmemF.1 hmemF.2
      obtain ⟨ih1, ih2, ih3, ih4, ih5⟩ := ih (jobs.map (claimUpdate j0.id)) hnd1
      have htrans : ∀ r ∈ (dequeueRun now n (jobs.map (claimUpdate j0.id))).1.filterMap id,
          ∃ e ∈ jobs, eligibleJob now e = true ∧ r = applyClaim e := by
        intro r hr
        obtain ⟨j1, hj1, he1, rfl⟩ := ih4 r hr
        obtain ⟨e, hee, hje⟩ := List.mem_map.mp hj1
        by_cases hc : e.id = j0.id
        · have hej : e = j0 := id_unique hnd hee hmemF.1 hc
          subst hej
          rw [claimUpdate_self] at hje
          rw [← hje] at he1
          rw [eligibleJob_applyClaim] at he1
          exact absurd he1 (by simp)
        · rw [claimUpdate_of_ne hc] at hje
          subst hje
          exact ⟨e, hee, he1, rfl⟩
      have hfresh : (applyClaim j0).id ∉
          ((dequeueRun now n (jobs.map (claimUpdate j0.id))).1.filterMap id).map
            EmailJob.id := by
        intro hcon
        obtain ⟨r, hrmem, hrid⟩ := List.mem_map.mp hcon
        obtain ⟨j1, hj1, he1, rfl⟩ := ih4 r hrmem
        have hj0s1 : applyClaim j0 ∈ jobs.map (claimUpdate j0.id) :=
          List.mem_map.mpr ⟨j0, hmemF.1, claimUpdate_self j0⟩
        have hj1e : j1 = applyClaim j0 := id_unique hnd1 hj1 hj0s1 hrid
        rw [hj1e] at he1
        rw [eligibleJob_applyClaim] at he1
        exact absurd he1 (by simp)
      simp only [dequeueRun, hdq]
      refine ⟨by simp [ih1], ?_, ?_, ?_, ?_⟩
      · simp only [List.filterMap_cons, id_eq, List.length_cons]
        rw [ih2, hK1]
        omega
      · simp only [List.countP_cons, Option.isNone_some]
        rw [ih3, hK1]
        simp
        omega
      · simp only [List.filterMap_cons, id_eq]
        intro r hr
        rcases List.mem_cons.mp hr with rfl | hr
        · exact ⟨j0, hmemF.1, hmemF.2, rfl⟩
        · exact htrans r hr
      · simp only [List.filterMap_cons, id_eq, List.map_cons, List.nodup_cons]
        exact ⟨hfresh, ih5⟩

/-- Claim C9: with `_id` unique, running `N` `Dequeue` calls (which is
what `N` concurrent callers linearize to, `findOneAndUpdate` being atomic)
against a store holding `K` eligible jobs with `K < N` yields exactly `K`
returned jobs, pairwise distinct by id, each the claimed image of a
distinct originally-eligible job, and the remaining `N - K` calls return
"no job" (`none`, not an error). -/
theorem C9_concurrent_dequeue (now : Int) (jobs : List EmailJob) (N : Nat)
    (hnd : (jobs.map EmailJob.id).Nodup) (hKN : eligCount now jobs < N) :
    (dequeueRun now N jobs).1.length = N ∧
    ((dequeueRun now N jobs).1.filterMap id).length = eligCount now jobs ∧
    ((dequeueRun now N jobs).1.countP (fun o => o.isNone)) =
      N - eligCount now jobs ∧
    (∀ r ∈ (dequeueRun now N jobs).1.filterMap id,
        ∃ j0 ∈ jobs, eligibleJob now j0 = true ∧ r = applyClaim j0) ∧
    (((dequeueRun now N jobs).1.filterMap id).map EmailJob.id).Nodup := by
  obtain ⟨h1, h2, h3, h4, h5⟩ := dequeueRun_spec now N jobs hnd
  have hmin : min N (eligCount now jobs) = eligCount now jobs := by omega
  rw [hmin] at h2 h3
  exact ⟨h1, h2, h3, h4, h5⟩

/-- Witness for C9: three callers against two eligible jobs. -/
theorem C9_witness :
    (dequeueRun 10 3 [baseJob, laterJob]).1.length = 3 ∧
    ((dequeueRun 10 3 [baseJob, laterJob]).1.filterMap id).length =
      eligCount 10 [baseJob, laterJob] ∧
    ((dequeueRun 10 3 [baseJob, laterJob]).1.countP (fun o => o.isNone)) =
      3 - eligCount 10 [baseJob, laterJob] ∧
    (∀ r ∈ (dequeueRun 10 3 [baseJob, laterJob]).1.filterMap id,
        ∃ j0 ∈ [baseJob, laterJob], eligibleJob 10 j0 = true ∧ r = applyClaim j0) ∧
    (((dequeueRun 10 3 [baseJob, laterJob]).1.filterMap id).map EmailJob.id).Nodup :=
  C9_concurrent_dequeue 10 [baseJob, laterJob] 3 (by decide) (by decide)

end GoMailing
